import Mathlib

/-!
Verification of the batch upload/analysis/search orchestration layer of the
viz-search repository (src/lib/batch-processor.ts and its variant, plus the
progress/aggregation logic of src/app/page.tsx).

The TypeScript code is shallowly embedded: asynchronous remote calls are
modelled as environment functions indexed by the retry-attempt number and
returning `Except String` (a thrown JS `Error` becomes `Except.error` carrying
its message string); `Promise.allSettled` over a list of tasks is modelled as
the list of `Except`-settled values in submission (index) order, which is the
order JS guarantees for the result array regardless of completion timing.
JS numbers that are used as scores are modelled as `Rat`.
-/

deriving instance DecidableEq for Except

/-- Processing status of an image record (types.ts `processing_status`). -/
inductive ProcessingStatus where
  | pending
  | processing
  | completed
  | error
deriving Repr, DecidableEq

/-- Minimal model of a browser `File`: the fields the orchestration layer
reads (`file.name` for logging, `file.type` as the mime type). -/
structure FileRef where
  name : String
  type : String
deriving Repr, DecidableEq

/-- Image record (types.ts `ProcessedImage`). `uploaded_at` is modelled as a
numeric timestamp; optional TS fields become `Option`. -/
structure ProcessedImage where
  id : String
  file : FileRef
  preview : String
  ocr_text : String
  image_description : String
  uploaded_at : Nat
  gemini_file_uri : Option String
  processing_status : ProcessingStatus
  error_message : Option String
deriving Repr, DecidableEq

/-- Analysis payload (types.ts `GeminiImageAnalysisResponse`). -/
structure GeminiImageAnalysisResponse where
  ocr_text : String
  image_description : String
  confidence_score : Option Rat
deriving Repr, DecidableEq

/-- Outcome of processing one image (batch-processor.ts `BatchProcessResult`).
Optional TS fields become `Option`. -/
structure BatchProcessResult where
  success : Bool
  image : ProcessedImage
  geminiFileUri : Option String
  ocrText : Option String
  imageDescription : Option String
  error : Option String
deriving Repr, DecidableEq

/-- One similarity entry of the remote search response
(types.ts `GeminiSearchResponse.similarities` element). -/
structure Similarity where
  image_id : String
  score : Rat
  reasoning : Option String
deriving Repr, DecidableEq

/-- Remote search response (types.ts `GeminiSearchResponse`).  The static TS
type declares `similarities` as always present, but the value is produced by
an unchecked JSON cast, so the consumer guards with `result.similarities || []`;
the field is therefore modelled as an `Option`. -/
structure GeminiSearchResponse where
  similarities : Option (List Similarity)
deriving Repr, DecidableEq

/-- Search result for a batch (batch-processor variant `SearchBatchResult`). -/
structure SearchBatchResult where
  similarities : List Similarity
deriving Repr, DecidableEq

/-- Upload progress record (types.ts `UploadProgress`). -/
structure UploadProgress where
  total : Nat
  completed : Nat
  current_file : Option String
  percentage : Nat
deriving Repr, DecidableEq

/-- batch-processor.ts: `const MAX_RETRIES = 3`. -/
def MAX_RETRIES : Nat := 3

/-- batch-processor.ts: `const INITIAL_RETRY_DELAY = 1000`. -/
def INITIAL_RETRY_DELAY : Nat := 1000

/-- src/lib/batch-processor.ts: `const BATCH_SIZE = 5`. -/
def BATCH_SIZE : Nat := 5

/-- The unnamed batch-processor variant sets `const BATCH_SIZE = 15`. -/
def BATCH_SIZE_VARIANT : Nat := 15

/-- The unnamed batch-processor variant: `const SEARCH_BATCH_SIZE = 10`. -/
def SEARCH_BATCH_SIZE : Nat := 10

/-- Trace of one `withRetry` run: the settled result, how many times the
operation thunk was invoked, and the list of backoff delays actually waited
(in milliseconds, in chronological order). -/
structure RetryTrace (α : Type) where
  result : Except String α
  invocations : Nat
  delays : List Nat
deriving Repr

/-- Loop body of `withRetry` (batch-processor.ts lines 34-52).  `attempt` is
the current 0-indexed attempt number and `fuel` the number of retries still
allowed (`maxRetries - attempt`); `fuel = 0` corresponds to the
`attempt === maxRetries` check that rethrows the last error.  The operation
is modelled as a function from the attempt index to its settled outcome. -/
def withRetryGo (op : Nat → Except String α) (initialDelay : Nat) :
    Nat → Nat → RetryTrace α
  | attempt, 0 =>
    match op attempt with
    | Except.ok v => ⟨Except.ok v, 1, []⟩
    | Except.error e => ⟨Except.error e, 1, []⟩
  | attempt, fuel + 1 =>
    match op attempt with
    | Except.ok v => ⟨Except.ok v, 1, []⟩
    | Except.error _ =>
      let rest := withRetryGo op initialDelay (attempt + 1) fuel
      ⟨rest.result, rest.invocations + 1, initialDelay * 2 ^ attempt :: rest.delays⟩

/-- batch-processor.ts `withRetry` (lines 27-55): up to `maxRetries + 1`
attempts starting at attempt 0, waiting `initialDelay * 2 ^ attempt` after a
failed attempt that is not the last, rethrowing the last error otherwise. -/
def withRetry (op : Nat → Except String α) (maxRetries initialDelay : Nat) :
    RetryTrace α :=
  withRetryGo op initialDelay 0 maxRetries

/-- Remote-call environment consumed by the upload path (api.ts):
`uploadFileToAPI` and `analyzeImageAPI`, each additionally indexed by the
0-based retry attempt number so that distinct attempts may settle
differently. -/
structure ApiEnv where
  uploadFileToAPI : FileRef → Nat → Except String String
  analyzeImageAPI : String → String → Nat → Except String GeminiImageAnalysisResponse

/-- batch-processor.ts `processSingleImage` (lines 60-87): upload with retry,
then analyze with retry; any escaping error is caught and returned as a
`success := false` outcome, so the function always resolves to a value. -/
def processSingleImage (env : ApiEnv) (image : ProcessedImage) : BatchProcessResult :=
  match (withRetry (env.uploadFileToAPI image.file) MAX_RETRIES INITIAL_RETRY_DELAY).result with
  | Except.error e =>
      { success := false, image := image, geminiFileUri := none,
        ocrText := none, imageDescription := none, error := some e }
  | Except.ok geminiFileUri =>
    match (withRetry (env.analyzeImageAPI geminiFileUri image.file.type)
        MAX_RETRIES INITIAL_RETRY_DELAY).result with
    | Except.error e =>
        { success := false, image := image, geminiFileUri := none,
          ocrText := none, imageDescription := none, error := some e }
    | Except.ok analysisResult =>
        { success := true, image := image, geminiFileUri := some geminiFileUri,
          ocrText := some analysisResult.ocr_text,
          imageDescription := some analysisResult.image_description,
          error := none }

/-- The settled states of the promises passed to `Promise.allSettled` in
`processBatch`.  The body of `processSingleImage` is entirely guarded by
try/catch, so each promise fulfills with its returned outcome. -/
def settleBatch (env : ApiEnv) (images : List ProcessedImage) :
    List (Except String BatchProcessResult) :=
  images.map (fun image => Except.ok (processSingleImage env image))

/-- batch-processor.ts `processBatch` (lines 92-122): run the group
concurrently via `Promise.allSettled` and convert each settled result,
synthesizing a failure outcome from `images[index]` for a rejected promise. -/
def processBatch (env : ApiEnv) (images : List ProcessedImage) :
    List BatchProcessResult :=
  (images.zip (settleBatch env images)).map (fun p =>
    match p.2 with
    | Except.ok v => v
    | Except.error reason =>
        { success := false, image := p.1, geminiFileUri := none,
          ocrText := none, imageDescription := none, error := some reason })

/-- The synthetic failure outcome built in the `catch` branch of
`processImagesInBatches` (lines 168-172) for every image of a faulted group. -/
def syntheticFailure (msg : String) (image : ProcessedImage) : BatchProcessResult :=
  { success := false, image := image, geminiFileUri := none,
    ocrText := none, imageDescription := none, error := some msg }

/-- Contiguous chunks of size `bs` in original order, mirroring the slicing
loop `images.slice(i, i + batchSize)` of `processImagesInBatches`.  For
`bs = 0` the TS loop never terminates; this model is only used under a
`0 < bs` hypothesis, where it produces exactly the slices of the loop. -/
def chunkList (bs : Nat) : List α → List (List α)
  | [] => []
  | x :: xs => (x :: xs.take (bs - 1)) :: chunkList bs (xs.drop (bs - 1))
termination_by l => l.length
decreasing_by
  simp only [List.length_drop, List.length_cons]
  omega

/-- Sequential per-group loop of `processImagesInBatches` (lines 143-180).
`groupFault batchIndex = some msg` models the hypothetical case in which the
awaited group orchestration itself throws an error with message `msg`
(the `catch` branch); `none` is the normal path.  Returns the accumulated
outcome list together with the ordered log of `onBatchComplete` invocations
`(results, batchIndex, totalBatches)`. -/
def runGroups (env : ApiEnv) (groupFault : Nat → Option String) (totalBatches : Nat) :
    List (List ProcessedImage) → Nat →
      List BatchProcessResult × List (List BatchProcessResult × Nat × Nat)
  | [], _ => ([], [])
  | g :: rest, batchIndex =>
    let results := match groupFault batchIndex with
      | none => processBatch env g
      | some msg => g.map (syntheticFailure msg)
    let restOut := runGroups env groupFault totalBatches rest (batchIndex + 1)
    (results ++ restOut.1, (results, batchIndex, totalBatches) :: restOut.2)

/-- batch-processor.ts `processImagesInBatches` (lines 127-190): chunk the
input into groups of `batchSize`, run the groups sequentially, notify
`onBatchComplete` after each group, and concatenate all outcomes.
`(images.length + batchSize - 1) / batchSize` is `Math.ceil` on naturals. -/
def processImagesInBatches (env : ApiEnv) (groupFault : Nat → Option String)
    (images : List ProcessedImage) (batchSize : Nat) :
    List BatchProcessResult × List (List BatchProcessResult × Nat × Nat) :=
  runGroups env groupFault ((images.length + batchSize - 1) / batchSize)
    (chunkList batchSize images) 0

/-- Batch-processor variant `searchImageBatch` (the retried remote search call
for one partition).  The whole body is guarded by try/catch: on success the
possibly-absent `result.similarities` is defaulted to `[]`
(`result.similarities || []`), and on any escaping error the function
resolves with `{ similarities: [] }` instead of rejecting.  The remote call
is modelled as a function from the 0-based attempt index to its outcome,
with the query and the partition already applied. -/
def searchImageBatch (searchCall : Nat → Except String GeminiSearchResponse) :
    SearchBatchResult :=
  match (withRetry searchCall MAX_RETRIES INITIAL_RETRY_DELAY).result with
  | Except.ok result => { similarities := result.similarities.getD [] }
  | Except.error _ => { similarities := [] }

/-- Trace of the `batchResults.forEach` collection loop of
`searchImagesInBatches`: the concatenated similarities of the fulfilled
batches, the ordered `onBatchComplete` log, and the number of times the
`rejected` branch was taken. -/
structure CollectTrace where
  similarities : List Similarity
  callbackLog : List (SearchBatchResult × Nat × Nat)
  rejectedHits : Nat
deriving Repr, DecidableEq

/-- The `batchResults.forEach((result, batchIndex) => ...)` loop of
`searchImagesInBatches`: a fulfilled batch contributes its similarities and a
callback invocation with its value; a rejected batch contributes nothing and
a callback invocation with an empty payload. -/
def collectSettled : List (Except String SearchBatchResult) → Nat → Nat → CollectTrace
  | [], _, _ => ⟨[], [], 0⟩
  | r :: rest, batchIndex, totalBatches =>
    let restOut := collectSettled rest (batchIndex + 1) totalBatches
    match r with
    | Except.ok value =>
        ⟨value.similarities ++ restOut.similarities,
         (value, batchIndex, totalBatches) :: restOut.callbackLog,
         restOut.rejectedHits⟩
    | Except.error _ =>
        ⟨restOut.similarities,
         ({ similarities := [] }, batchIndex, totalBatches) :: restOut.callbackLog,
         restOut.rejectedHits + 1⟩

/-- The comparator `(a, b) => (b.score || 0) - (a.score || 0)` used by
`allSimilarities.sort`: `a` may precede `b` exactly when the comparator is
nonpositive, i.e. `b.score ≤ a.score` (descending by score). -/
def simLE (a b : Similarity) : Bool := decide (b.score ≤ a.score)

/-- Stable insertion into a descending-sorted list: `x` is placed before the
first element it may precede under `simLE`, i.e. after every earlier element
with a score greater than or equal to its own. -/
def insertSim (x : Similarity) : List Similarity → List Similarity
  | [] => [x]
  | b :: l => if simLE x b then x :: b :: l else b :: insertSim x l

/-- Model of `allSimilarities.sort((a, b) => (b.score || 0) - (a.score || 0))`:
JS `Array.prototype.sort` is required to be stable, and every stable sort
consistent with this comparator produces the same list, namely the one this
stable insertion sort produces. -/
def sortSims : List Similarity → List Similarity
  | [] => []
  | x :: xs => insertSim x (sortSims xs)

/-- Trace of one `searchImagesInBatches` run: the returned value, the number
of `searchImageBatch` invocations actually issued, the ordered
`onBatchComplete` log, and the number of times the `rejected` branch of the
collection loop was taken. -/
structure SearchRunTrace where
  result : SearchBatchResult
  remoteCalls : Nat
  callbackLog : List (SearchBatchResult × Nat × Nat)
  rejectedHits : Nat
deriving Repr, DecidableEq

/-- Batch-processor variant `searchImagesInBatches`: empty corpus
short-circuits; otherwise one `searchImageBatch` promise is launched per
contiguous group, all are awaited with `Promise.allSettled` (every element
fulfills, since `searchImageBatch` never rejects), the settled results are
collected in submission order, and the concatenation is sorted with the
stable JS sort under the descending-score comparator. -/
def searchImagesInBatches
    (search : String → List ProcessedImage → Nat → Except String GeminiSearchResponse)
    (query : String) (images : List ProcessedImage) (batchSize : Nat) :
    SearchRunTrace :=
  if images.isEmpty then ⟨{ similarities := [] }, 0, [], 0⟩
  else
    let totalBatches := (images.length + batchSize - 1) / batchSize
    let groups := chunkList batchSize images
    let settled := groups.map (fun g => Except.ok (searchImageBatch (search query g)))
    let collected := collectSettled settled 0 totalBatches
    ⟨{ similarities := sortSims collected.similarities },
     groups.length, collected.callbackLog, collected.rejectedHits⟩

/-- Model of `Math.round(100 * a / b)` for naturals: `100 * a / b` rounded
half away from zero equals the floor of `(200 * a + b) / (2 * b)`. -/
def jsRoundPct (a b : Nat) : Nat := (200 * a + b) / (2 * b)

/-- page.tsx `processImages` progress update (the `upload_progress` branch of
the `onBatchComplete` callback, lines 123-132): `completed` is
`Math.min((batchIndex + 1) * 5, images.length)` with the literal constant 5
(comment in source: assume batch size of 5), and `percentage` is
`Math.round(((batchIndex + 1) / totalBatches) * 100)`. -/
def pageUploadProgress (prev : UploadProgress) (batchIndex totalBatches imagesLength : Nat) :
    UploadProgress :=
  { prev with
    completed := min ((batchIndex + 1) * 5) imagesLength,
    current_file := some ("Batch " ++ toString (batchIndex + 1) ++ "/"
      ++ toString totalBatches ++ " complete"),
    percentage := jsRoundPct (batchIndex + 1) totalBatches }

/-- Modelled from the spec: the Progress Record rule `percentage =
round(100 * completed / total)`, clamped to [0, 100] (the natural-number
model clamps only the upper bound, the lower bound being automatic).  The
code under src/ computes the percentage differently; this definition is the
comparison point for that refinement check. -/
def specProgressPercentage (completed total : Nat) : Nat :=
  min (jsRoundPct completed total) 100

/-- page.tsx `onBatchComplete` per-record update: the body of
`prev.images.map` applied when `batchResults.find` returned `result`. -/
def applyOutcome (img : ProcessedImage) (result : BatchProcessResult) : ProcessedImage :=
  if result.success then
    { img with
      processing_status := ProcessingStatus.completed,
      gemini_file_uri := result.geminiFileUri,
      ocr_text := result.ocrText.getD "",
      image_description := result.imageDescription.getD "" }
  else
    { img with
      processing_status := ProcessingStatus.error,
      error_message := some (result.error.getD "Processing failed") }

/-- page.tsx `onBatchComplete` aggregator merge (lines 100-122): map over the
record collection, transitioning each record whose `id` matches an outcome of
the batch and leaving the others as they are. -/
def mergeOutcomes (images : List ProcessedImage) (batchResults : List BatchProcessResult) :
    List ProcessedImage :=
  images.map (fun img =>
    match batchResults.find? (fun r => r.image.id == img.id) with
    | some result => applyOutcome img result
    | none => img)

/-! Concrete fixtures used by witnesses and counterexamples. -/

/-- A fresh image record as built by `handleFilesUploaded` in page.tsx. -/
def mkTestImage (n : Nat) : ProcessedImage :=
  { id := "img-" ++ toString n,
    file := { name := "file-" ++ toString n, type := "image/png" },
    preview := "", ocr_text := "", image_description := "", uploaded_at := n,
    gemini_file_uri := none, processing_status := ProcessingStatus.pending,
    error_message := none }

/-- Environment in which every remote call succeeds on its first attempt. -/
def goodEnv : ApiEnv :=
  { uploadFileToAPI := fun f _ => Except.ok ("uri-" ++ f.name),
    analyzeImageAPI := fun uri _ _ => Except.ok ⟨"ocr " ++ uri, "desc " ++ uri, none⟩ }

/-- Environment in which the upload of exactly one file (the one named
`file-2`) always fails, and every other call succeeds immediately. -/
def oneBadEnv : ApiEnv :=
  { uploadFileToAPI := fun f _ =>
      if f.name = "file-2" then Except.error "upload boom"
      else Except.ok ("uri-" ++ f.name),
    analyzeImageAPI := fun _ _ _ => Except.ok ⟨"", "", none⟩ }

/-- A search environment that returns an entry for the same image id `x`
from two different partitions (defensive-deduplication scenario): the
partition holding `img-0` reports score 50, any other partition reports
score 90.  Scores are integer-valued rationals for kernel computability. -/
def dupSearch (_ : String) (g : List ProcessedImage) (_ : Nat) :
    Except String GeminiSearchResponse :=
  match g.head? with
  | some img =>
      if img.id = "img-0" then Except.ok ⟨some [⟨"x", 50, none⟩]⟩
      else Except.ok ⟨some [⟨"x", 90, none⟩]⟩
  | none => Except.ok ⟨some []⟩

/-- The ranking-determinism scenario: one partition returns `a` with score
90, the other returns `b` with score 95 and `c` with score 20. -/
def rankSearch (_ : String) (g : List ProcessedImage) (_ : Nat) :
    Except String GeminiSearchResponse :=
  match g.head? with
  | some img =>
      if img.id = "img-0" then Except.ok ⟨some [⟨"a", 90, none⟩]⟩
      else Except.ok ⟨some [⟨"b", 95, none⟩, ⟨"c", 20, none⟩]⟩
  | none => Except.ok ⟨some []⟩

/-- A search environment whose remote call fails on every attempt. -/
def failSearch (_ : String) (_ : List ProcessedImage) (_ : Nat) :
    Except String GeminiSearchResponse :=
  Except.error "search boom"

/-- An operation that fails on attempts 0 and 1 and succeeds on attempt 2. -/
def wOp : Nat → Except String Nat :=
  fun n => if n < 2 then Except.error "boom" else Except.ok 7

/-! Helper lemmas about the retry loop. -/

theorem withRetryGo_invocations_le (op : Nat → Except String α) (d : Nat)
    (fuel : Nat) : ∀ (attempt : Nat),
    (withRetryGo op d attempt fuel).invocations ≤ fuel + 1 := by
  induction fuel with
  | zero =>
    intro attempt
    simp only [withRetryGo]
    cases h : op attempt <;> simp
  | succ n ih =>
    intro attempt
    simp only [withRetryGo]
    cases h : op attempt with
    | ok v => simp
    | error e =>
      have := ih (attempt + 1)
      simp only []
      omega

theorem withRetryGo_first_success (op : Nat → Except String α) (d : Nat) :
    ∀ (k fuel attempt : Nat) (v : α), k ≤ fuel →
      (∀ j, j < k → ∃ e, op (attempt + j) = Except.error e) →
      op (attempt + k) = Except.ok v →
      withRetryGo op d attempt fuel
        = ⟨Except.ok v, k + 1, (List.range k).map (fun j => d * 2 ^ (attempt + j))⟩ := by
  intro k
  induction k with
  | zero =>
    intro fuel attempt v _ _ hk
    rw [Nat.add_zero] at hk
    cases fuel <;> simp [withRetryGo, hk]
  | succ n ih =>
    intro fuel attempt v hle hfail hk
    obtain ⟨e, he⟩ := hfail 0 (Nat.succ_pos n)
    rw [Nat.add_zero] at he
    cases fuel with
    | zero => omega
    | succ m =>
      have hrec := ih m (attempt + 1) v (by omega)
        (fun j hj => by
          obtain ⟨e2, he2⟩ := hfail (j + 1) (by omega)
          exact ⟨e2, by rw [show attempt + 1 + j = attempt + (j + 1) by omega]; exact he2⟩)
        (by rw [show attempt + 1 + n = attempt + (n + 1) by omega]; exact hk)
      simp only [withRetryGo, he, hrec]
      refine congrArg (RetryTrace.mk (Except.ok v) (n + 1 + 1)) ?_
      rw [List.range_succ_eq_map, List.map_cons, List.map_map]
      refine congrArg₂ List.cons (by rw [Nat.add_zero]) ?_
      exact List.map_congr_left (fun j _ => by
        simp only [Function.comp]
        rw [show attempt + 1 + j = attempt + (j + 1) by omega])

theorem withRetryGo_all_fail (op : Nat → Except String α) (d : Nat) :
    ∀ (fuel attempt : Nat) (e : String),
      (∀ j, j < fuel → ∃ e2, op (attempt + j) = Except.error e2) →
      op (attempt + fuel) = Except.error e →
      withRetryGo op d attempt fuel
        = ⟨Except.error e, fuel + 1,
           (List.range fuel).map (fun j => d * 2 ^ (attempt + j))⟩ := by
  intro fuel
  induction fuel with
  | zero =>
    intro attempt e _ hlast
    rw [Nat.add_zero] at hlast
    simp [withRetryGo, hlast]
  | succ m ih =>
    intro attempt e hfail hlast
    obtain ⟨e0, he0⟩ := hfail 0 (Nat.succ_pos m)
    rw [Nat.add_zero] at he0
    have hrec := ih (attempt + 1) e
      (fun j hj => by
        obtain ⟨e2, he2⟩ := hfail (j + 1) (by omega)
        exact ⟨e2, by rw [show attempt + 1 + j = attempt + (j + 1) by omega]; exact he2⟩)
      (by rw [show attempt + 1 + m = attempt + (m + 1) by omega]; exact hlast)
    simp only [withRetryGo, he0, hrec]
    refine congrArg (RetryTrace.mk (Except.error e) (m + 1 + 1)) ?_
    rw [List.range_succ_eq_map, List.map_cons, List.map_map]
    refine congrArg₂ List.cons (by rw [Nat.add_zero]) ?_
    exact List.map_congr_left (fun j _ => by
      simp only [Function.comp]
      rw [show attempt + 1 + j = attempt + (j + 1) by omega])

/-- C2: `withRetry` invokes the operation at most `maxRetries + 1` times; if
the first successful attempt is attempt `k ≤ maxRetries` it returns that
value after exactly `k + 1` invocations, having waited
`initialDelay * 2 ^ j` after each failed attempt `j < k`; and if every
attempt fails it propagates the last error unchanged after exactly
`maxRetries + 1` invocations. -/
theorem withRetry_claim (op : Nat → Except String α) (m d k : Nat) (v : α) (e : String) :
    (withRetry op m d).invocations ≤ m + 1
    ∧ (k ≤ m → (∀ j, j < k → ∃ e2, op j = Except.error e2) → op k = Except.ok v →
        withRetry op m d
          = ⟨Except.ok v, k + 1, (List.range k).map (fun j => d * 2 ^ j)⟩)
    ∧ ((∀ j, j < m → ∃ e2, op j = Except.error e2) → op m = Except.error e →
        withRetry op m d
          = ⟨Except.error e, m + 1, (List.range m).map (fun j => d * 2 ^ j)⟩) := by
  refine ⟨withRetryGo_invocations_le op d m 0, ?_, ?_⟩
  · intro hle hfail hk
    have := withRetryGo_first_success op d k m 0 v hle
      (fun j hj => by simpa using hfail j hj) (by simpa using hk)
    simpa using this
  · intro hfail hlast
    have := withRetryGo_all_fail op d m 0 e
      (fun j hj => by simpa using hfail j hj) (by simpa using hlast)
    simpa using this

theorem processBatch_eq_map (env : ApiEnv) :
    ∀ (images : List ProcessedImage),
      processBatch env images = images.map (processSingleImage env)
  | [] => rfl
  | x :: xs => by
    have ih := processBatch_eq_map env xs
    simp only [processBatch, settleBatch, List.map_cons, List.zip_cons_cons] at ih ⊢
    rw [ih]

theorem chunkList_flatten (bs : Nat) : ∀ (l : List α), (chunkList bs l).flatten = l
  | [] => by simp [chunkList]
  | x :: xs => by
    simp only [chunkList, List.flatten_cons]
    rw [chunkList_flatten bs (xs.drop (bs - 1))]
    simp [List.cons_append, List.take_append_drop]
termination_by l => l.length
decreasing_by simp only [List.length_drop, List.length_cons]; omega

theorem runGroups_results_nofault (env : ApiEnv) (tb : Nat) :
    ∀ (gs : List (List ProcessedImage)) (idx : Nat),
      (runGroups env (fun _ => none) tb gs idx).1
        = gs.flatten.map (processSingleImage env)
  | [], _ => rfl
  | g :: rest, idx => by
    simp only [runGroups, List.flatten_cons, List.map_append]
    rw [runGroups_results_nofault env tb rest (idx + 1), processBatch_eq_map]

/-- Witness for C2: a concrete operation that fails twice then succeeds is
invoked 3 times with delays 1000 and 2000; a concrete operation that always
fails exhausts 4 invocations with delays 1000, 2000, 4000 and propagates the
final error unchanged. -/
theorem withRetry_claim_witness :
    (2 ≤ 3 ∧ withRetry wOp 3 1000 = ⟨Except.ok 7, 3, [1000, 2000]⟩)
    ∧ withRetry (fun _ => (Except.error "always" : Except String Nat)) 3 1000
        = ⟨Except.error "always", 4, [1000, 2000, 4000]⟩ := by
  have h := withRetry_claim wOp 3 1000 2 7 "boom"
  have h2 := withRetry_claim (fun _ => (Except.error "always" : Except String Nat))
    3 1000 0 0 "always"
  refine ⟨⟨by omega, ?_⟩, ?_⟩
  · have hk := h.2.1 (by omega)
      (fun j hj => ⟨"boom", by simp [wOp, hj]⟩)
      (by simp [wOp])
    rw [hk]
    rfl
  · have hk := h2.2.2 (fun j _ => ⟨"always", rfl⟩) rfl
    rw [hk]
    rfl

/-- C3: `processSingleImage` always resolves to an outcome value: a
`success := true` record carrying the remote file reference, OCR text and
description when both retried steps succeed, and a `success := false` record
carrying the error message when either step exhausts its retries; and within
a group each outcome is a function of its own image alone
(`processBatch` is the per-image map), so one image failing cannot abort a
sibling image of the same group. -/
theorem processSingleImage_claim (env : ApiEnv) (image : ProcessedImage) :
    (∀ e,
      (withRetry (env.uploadFileToAPI image.file) MAX_RETRIES INITIAL_RETRY_DELAY).result
          = Except.error e →
        processSingleImage env image
          = { success := false, image := image, geminiFileUri := none,
              ocrText := none, imageDescription := none, error := some e })
    ∧ (∀ uri e,
        (withRetry (env.uploadFileToAPI image.file) MAX_RETRIES INITIAL_RETRY_DELAY).result
          = Except.ok uri →
        (withRetry (env.analyzeImageAPI uri image.file.type)
            MAX_RETRIES INITIAL_RETRY_DELAY).result = Except.error e →
        processSingleImage env image
          = { success := false, image := image, geminiFileUri := none,
              ocrText := none, imageDescription := none, error := some e })
    ∧ (∀ uri a,
        (withRetry (env.uploadFileToAPI image.file) MAX_RETRIES INITIAL_RETRY_DELAY).result
          = Except.ok uri →
        (withRetry (env.analyzeImageAPI uri image.file.type)
            MAX_RETRIES INITIAL_RETRY_DELAY).result = Except.ok a →
        processSingleImage env image
          = { success := true, image := image, geminiFileUri := some uri,
              ocrText := some a.ocr_text,
              imageDescription := some a.image_description, error := none })
    ∧ (∀ images : List ProcessedImage,
        processBatch env images = images.map (processSingleImage env)) := by
  refine ⟨?_, ?_, ?_, processBatch_eq_map env⟩
  · intro e h
    simp only [processSingleImage, h]
  · intro uri e h1 h2
    simp only [processSingleImage, h1, h2]
  · intro uri a h1 h2
    simp only [processSingleImage, h1, h2]

/-- Witness for C3: in a group of 5 images where exactly one upload always
fails, the failing image gets a returned failure value with the error
message, and the other 4 images still succeed (5 outcomes, 4 successes). -/
theorem processSingleImage_claim_witness :
    (withRetry (oneBadEnv.uploadFileToAPI (mkTestImage 2).file)
        MAX_RETRIES INITIAL_RETRY_DELAY).result = Except.error "upload boom"
    ∧ processSingleImage oneBadEnv (mkTestImage 2)
        = { success := false, image := mkTestImage 2, geminiFileUri := none,
            ocrText := none, imageDescription := none, error := some "upload boom" }
    ∧ (processBatch oneBadEnv ((List.range 5).map mkTestImage)).length = 5
    ∧ (processBatch oneBadEnv ((List.range 5).map mkTestImage)).countP
        (fun r => r.success) = 4 := by
  refine ⟨by decide, ?_, by decide, by decide⟩
  exact (processSingleImage_claim oneBadEnv (mkTestImage 2)).1 "upload boom" (by decide)

/-- C1: with a positive batch size and no group-level fault, the outcome
list of `processImagesInBatches` is exactly the input list mapped through
`processSingleImage`: it has exactly N entries and the entry at index i is
the outcome for the input image at index i.  Completion timing within a
group is absent from the model because `Promise.allSettled` returns its
results in submission order. -/
theorem processImagesInBatches_order (env : ApiEnv) (images : List ProcessedImage)
    (batchSize : Nat) (hbs : 0 < batchSize) :
    (processImagesInBatches env (fun _ => none) images batchSize).1
        = images.map (processSingleImage env)
    ∧ (processImagesInBatches env (fun _ => none) images batchSize).1.length
        = images.length := by
  have h := runGroups_results_nofault env
    ((images.length + batchSize - 1) / batchSize) (chunkList batchSize images) 0
  constructor
  · rw [processImagesInBatches, h, chunkList_flatten]
  · rw [processImagesInBatches, h, chunkList_flatten]
    exact List.length_map _ _

/-- Witness for C1 at batch size 2 over 5 concrete images. -/
theorem processImagesInBatches_order_witness :
    0 < 2
    ∧ (processImagesInBatches goodEnv (fun _ => none)
          ((List.range 5).map mkTestImage) 2).1
        = ((List.range 5).map mkTestImage).map (processSingleImage goodEnv) := by
  exact ⟨by decide,
    (processImagesInBatches_order goodEnv ((List.range 5).map mkTestImage) 2
      (by decide)).1⟩

theorem runGroups_cons_fst (env : ApiEnv) (fault : Nat → Option String) (tb : Nat)
    (g : List ProcessedImage) (rest : List (List ProcessedImage)) (idx : Nat) :
    (runGroups env fault tb (g :: rest) idx).1
      = (match fault idx with
         | none => processBatch env g
         | some msg => g.map (syntheticFailure msg))
        ++ (runGroups env fault tb rest (idx + 1)).1 := by
  simp only [runGroups]

theorem runGroups_length (env : ApiEnv) (fault : Nat → Option String) (tb : Nat) :
    ∀ (gs : List (List ProcessedImage)) (idx : Nat),
      (runGroups env fault tb gs idx).1.length = gs.flatten.length
  | [], _ => rfl
  | g :: rest, idx => by
    rw [runGroups_cons_fst]
    simp only [List.length_append, List.flatten_cons]
    rw [runGroups_length env fault tb rest (idx + 1)]
    cases hf : fault idx <;>
      simp [processBatch_eq_map, List.length_append]

theorem runGroups_chunk_get (env : ApiEnv) (fault : Nat → Option String)
    (tb bs : Nat) (hbs : 0 < bs) :
    ∀ (l : List ProcessedImage) (idx i : Nat) (h : i < l.length)
      (h2 : i < (runGroups env fault tb (chunkList bs l) idx).1.length),
      (runGroups env fault tb (chunkList bs l) idx).1.get ⟨i, h2⟩
        = match fault (idx + i / bs) with
          | none => processSingleImage env (l.get ⟨i, h⟩)
          | some msg => syntheticFailure msg (l.get ⟨i, h⟩)
  | [], _, i, h, _ => by simp at h
  | x :: xs, idx, i, h, h2 => by
    have htake : (x :: xs).take bs = x :: xs.take (bs - 1) := by
      conv_lhs => rw [show bs = bs - 1 + 1 by omega]
      rfl
    have hchunk : chunkList bs (x :: xs)
        = (x :: xs.take (bs - 1)) :: chunkList bs (xs.drop (bs - 1)) := by
      simp only [chunkList]
    simp only [List.get_eq_getElem]
    by_cases hi : i < bs
    · have hidiv : i / bs = 0 := Nat.div_eq_of_lt hi
      have hilt : i < (x :: xs.take (bs - 1)).length := by
        simp only [List.length_cons, List.length_take]
        simp only [List.length_cons] at h
        omega
      have helem : getElem (x :: xs.take (bs - 1)) i hilt = getElem (x :: xs) i h := by
        have heq : (x :: xs.take (bs - 1)) = (x :: xs).take bs := htake.symm
        simp only [heq, List.getElem_take]
      rw [hidiv, Nat.add_zero]
      cases hf : fault idx with
      | none =>
        have hrw : (runGroups env fault tb (chunkList bs (x :: xs)) idx).1
            = (x :: xs.take (bs - 1)).map (processSingleImage env)
              ++ (runGroups env fault tb (chunkList bs (xs.drop (bs - 1))) (idx + 1)).1 := by
          rw [hchunk, runGroups_cons_fst, hf, processBatch_eq_map]
        rw [List.getElem_of_eq hrw, List.getElem_append_left (by simpa using hilt)]
        simp only [List.getElem_map]
        rw [helem]
      | some msg =>
        have hrw : (runGroups env fault tb (chunkList bs (x :: xs)) idx).1
            = (x :: xs.take (bs - 1)).map (syntheticFailure msg)
              ++ (runGroups env fault tb (chunkList bs (xs.drop (bs - 1))) (idx + 1)).1 := by
          rw [hchunk, runGroups_cons_fst, hf]
        rw [List.getElem_of_eq hrw, List.getElem_append_left (by simpa using hilt)]
        simp only [List.getElem_map]
        rw [helem]
    · have hge : bs ≤ i := Nat.le_of_not_lt hi
      have hlen : i - bs < (xs.drop (bs - 1)).length := by
        simp only [List.length_drop]
        simp only [List.length_cons] at h
        omega
      have hdiv : idx + 1 + (i - bs) / bs = idx + i / bs := by
        rw [Nat.div_eq_sub_div hbs hge]
        omega
      have hdrop : getElem (xs.drop (bs - 1)) (i - bs) hlen = getElem (x :: xs) i h := by
        have hq1 : (xs.drop (bs - 1))[i - bs]? = some (getElem (xs.drop (bs - 1)) (i - bs) hlen) :=
          List.getElem?_eq_getElem hlen
        have hq2 : (x :: xs)[i]? = some (getElem (x :: xs) i h) := List.getElem?_eq_getElem h
        have hq3 : (xs.drop (bs - 1))[i - bs]? = (x :: xs)[i]? := by
          rw [List.getElem?_drop]
          rw [show bs - 1 + (i - bs) = i - 1 by omega]
          conv_rhs => rw [show i = (i - 1) + 1 by omega]
          rw [List.getElem?_cons_succ]
        exact Option.some.inj ((hq1.symm.trans hq3).trans hq2)
      have h2r : i - bs
          < (runGroups env fault tb (chunkList bs (xs.drop (bs - 1))) (idx + 1)).1.length := by
        rw [runGroups_length, chunkList_flatten]
        exact hlen
      have hrec := runGroups_chunk_get env fault tb bs hbs (xs.drop (bs - 1))
        (idx + 1) (i - bs) hlen h2r
      simp only [List.get_eq_getElem] at hrec
      cases hf : fault idx with
      | none =>
        have hlmap : ((x :: xs.take (bs - 1)).map (processSingleImage env)).length = bs := by
          simp only [List.length_map, List.length_cons, List.length_take]
          simp only [List.length_cons] at h
          omega
        have hrw : (runGroups env fault tb (chunkList bs (x :: xs)) idx).1
            = (x :: xs.take (bs - 1)).map (processSingleImage env)
              ++ (runGroups env fault tb (chunkList bs (xs.drop (bs - 1))) (idx + 1)).1 := by
          rw [hchunk, runGroups_cons_fst, hf, processBatch_eq_map]
        rw [List.getElem_of_eq hrw, List.getElem_append_right (by omega)]
        simp only [hlmap]
        rw [show getElem (runGroups env fault tb (chunkList bs (xs.drop (bs - 1))) (idx + 1)).1
              (i - bs) (by simp only [hlmap] at *; exact h2r)
            = getElem (runGroups env fault tb (chunkList bs (xs.drop (bs - 1))) (idx + 1)).1
              (i - bs) h2r
          from rfl]
        rw [hrec, hdiv, hdrop]
      | some msg =>
        have hlmap : ((x :: xs.take (bs - 1)).map (syntheticFailure msg)).length = bs := by
          simp only [List.length_map, List.length_cons, List.length_take]
          simp only [List.length_cons] at h
          omega
        have hrw : (runGroups env fault tb (chunkList bs (x :: xs)) idx).1
            = (x :: xs.take (bs - 1)).map (syntheticFailure msg)
              ++ (runGroups env fault tb (chunkList bs (xs.drop (bs - 1))) (idx + 1)).1 := by
          rw [hchunk, runGroups_cons_fst, hf]
        rw [List.getElem_of_eq hrw, List.getElem_append_right (by omega)]
        simp only [hlmap]
        rw [show getElem (runGroups env fault tb (chunkList bs (xs.drop (bs - 1))) (idx + 1)).1
              (i - bs) (by simp only [hlmap] at *; exact h2r)
            = getElem (runGroups env fault tb (chunkList bs (xs.drop (bs - 1))) (idx + 1)).1
              (i - bs) h2r
          from rfl]
        rw [hrec, hdiv, hdrop]
termination_by l => l.length
decreasing_by simp only [List.length_drop, List.length_cons]; omega

theorem searchImageBatch_error (searchCall : Nat → Except String GeminiSearchResponse)
    (e : String)
    (h : (withRetry searchCall MAX_RETRIES INITIAL_RETRY_DELAY).result = Except.error e) :
    searchImageBatch searchCall = { similarities := [] } := by
  simp only [searchImageBatch, h]

/-- A group-fault oracle that makes exactly the group with batch index 1
throw an error whose message is the generic reason `Batch failed`. -/
def faultAt1 : Nat → Option String := fun i => if i = 1 then some "Batch failed" else none

/-- C4: the upload orchestration always completes with exactly one outcome
per input image; if the orchestration of the group holding index i throws
with message msg, the outcome at i is the synthesized failure record for the
input image at i, while indices in non-faulted groups still receive their
computed outcome (the run continues past a faulted group); and on the search
path, a partition whose retried remote call errors makes `searchImageBatch`
resolve with an empty similarity list instead of failing. -/
theorem processImagesInBatches_group_fault (env : ApiEnv)
    (fault : Nat → Option String) (images : List ProcessedImage)
    (batchSize : Nat) (hbs : 0 < batchSize) :
    (processImagesInBatches env fault images batchSize).1.length = images.length
    ∧ (∀ i msg (h : i < images.length)
        (h2 : i < (processImagesInBatches env fault images batchSize).1.length),
        fault (i / batchSize) = some msg →
        (processImagesInBatches env fault images batchSize).1.get ⟨i, h2⟩
          = syntheticFailure msg (images.get ⟨i, h⟩))
    ∧ (∀ i (h : i < images.length)
        (h2 : i < (processImagesInBatches env fault images batchSize).1.length),
        fault (i / batchSize) = none →
        (processImagesInBatches env fault images batchSize).1.get ⟨i, h2⟩
          = processSingleImage env (images.get ⟨i, h⟩))
    ∧ (∀ (searchCall : Nat → Except String GeminiSearchResponse) (e : String),
        (withRetry searchCall MAX_RETRIES INITIAL_RETRY_DELAY).result = Except.error e →
        searchImageBatch searchCall = { similarities := [] }) := by
  refine ⟨?_, ?_, ?_, fun searchCall e he => searchImageBatch_error searchCall e he⟩
  · show (runGroups env fault _ (chunkList batchSize images) 0).1.length = _
    rw [runGroups_length, chunkList_flatten]
  · intro i msg h h2 hf
    have hg := runGroups_chunk_get env fault
      ((images.length + batchSize - 1) / batchSize) batchSize hbs images 0 i h h2
    show (runGroups env fault _ (chunkList batchSize images) 0).1.get ⟨i, h2⟩ = _
    rw [hg, Nat.zero_add, hf]
  · intro i h h2 hf
    have hg := runGroups_chunk_get env fault
      ((images.length + batchSize - 1) / batchSize) batchSize hbs images 0 i h h2
    show (runGroups env fault _ (chunkList batchSize images) 0).1.get ⟨i, h2⟩ = _
    rw [hg, Nat.zero_add, hf]

/-- Witness for C4: over 5 concrete images with batch size 2, a fault in
group 1 yields the synthetic failure at index 2, leaves index 0 with its
computed outcome, and a search partition whose call always fails contributes
an empty similarity list. -/
theorem processImagesInBatches_group_fault_witness :
    0 < 2
    ∧ (processImagesInBatches goodEnv faultAt1
        ((List.range 5).map mkTestImage) 2).1.length = 5
    ∧ (processImagesInBatches goodEnv faultAt1
        ((List.range 5).map mkTestImage) 2).1[2]?
        = some (syntheticFailure "Batch failed" (mkTestImage 2))
    ∧ (processImagesInBatches goodEnv faultAt1
        ((List.range 5).map mkTestImage) 2).1[0]?
        = some (processSingleImage goodEnv (mkTestImage 0))
    ∧ searchImageBatch (failSearch "q" []) = { similarities := [] } := by
  have h := processImagesInBatches_group_fault goodEnv faultAt1
    ((List.range 5).map mkTestImage) 2 (by decide)
  have hlen : (processImagesInBatches goodEnv faultAt1
      ((List.range 5).map mkTestImage) 2).1.length = 5 := by
    rw [h.1]
    decide
  have hb2 : (2 : Nat) < (processImagesInBatches goodEnv faultAt1
      ((List.range 5).map mkTestImage) 2).1.length := by
    rw [hlen]
    decide
  have hb0 : (0 : Nat) < (processImagesInBatches goodEnv faultAt1
      ((List.range 5).map mkTestImage) 2).1.length := by
    rw [hlen]
    decide
  refine ⟨by decide, hlen, ?_, ?_, h.2.2.2 (failSearch "q" []) "search boom" (by decide)⟩
  · rw [List.getElem?_eq_getElem hb2]
    have hg := h.2.1 2 "Batch failed" (by decide) hb2 (by decide)
    simp only [List.get_eq_getElem] at hg
    rw [hg]
    decide
  · rw [List.getElem?_eq_getElem hb0]
    have hg := h.2.2.1 0 (by decide) hb0 (by decide)
    simp only [List.get_eq_getElem] at hg
    rw [hg]
    decide

theorem applyOutcome_id (img : ProcessedImage) (r : BatchProcessResult) :
    (applyOutcome img r).id = img.id := by
  by_cases h : r.success <;> simp [applyOutcome, h]

theorem applyOutcome_applyOutcome (img : ProcessedImage) (r : BatchProcessResult) :
    applyOutcome (applyOutcome img r) r = applyOutcome img r := by
  by_cases h : r.success <;> simp [applyOutcome, h]

/-- C9: the aggregator merge of page.tsx is idempotent — applying the same
batch outcomes twice produces the same record collection as applying them
once — and a record whose id matches no outcome in the batch is returned
completely unchanged. -/
theorem mergeOutcomes_claim (images : List ProcessedImage)
    (outs : List BatchProcessResult) :
    mergeOutcomes (mergeOutcomes images outs) outs = mergeOutcomes images outs
    ∧ (∀ i (h : i < images.length) (h2 : i < (mergeOutcomes images outs).length),
        (∀ r ∈ outs, r.image.id ≠ (images.get ⟨i, h⟩).id) →
        (mergeOutcomes images outs).get ⟨i, h2⟩ = images.get ⟨i, h⟩) := by
  constructor
  · simp only [mergeOutcomes, List.map_map]
    apply List.map_congr_left
    intro img _
    simp only [Function.comp]
    cases hf : outs.find? (fun r => r.image.id == img.id) with
    | none => simp [hf]
    | some result => simp [hf, applyOutcome_id, applyOutcome_applyOutcome]
  · intro i h h2 hnone
    have hf : outs.find? (fun r => r.image.id == (images.get ⟨i, h⟩).id) = none := by
      rw [List.find?_eq_none]
      intro r hr
      simp only [beq_eq_false_iff_ne, ne_eq, beq_iff_eq]
      exact hnone r hr
    simp only [mergeOutcomes, List.get_eq_getElem, List.getElem_map]
    simp only [List.get_eq_getElem] at hf
    simp [hf]

/-- The outcomes of one concrete batch over images 0..4, used to replay a
merge. -/
def witnessOuts : List BatchProcessResult :=
  processBatch oneBadEnv ((List.range 5).map mkTestImage)

/-- Witness for C9: replaying the concrete batch outcomes over 7 records
changes nothing the second time, and the record `img-6`, which no outcome
mentions, is returned unchanged. -/
theorem mergeOutcomes_claim_witness :
    mergeOutcomes (mergeOutcomes ((List.range 7).map mkTestImage) witnessOuts) witnessOuts
      = mergeOutcomes ((List.range 7).map mkTestImage) witnessOuts
    ∧ (mergeOutcomes ((List.range 7).map mkTestImage) witnessOuts)[6]?
      = some (mkTestImage 6) := by
  have h := mergeOutcomes_claim ((List.range 7).map mkTestImage) witnessOuts
  have hlen : (mergeOutcomes ((List.range 7).map mkTestImage) witnessOuts).length = 7 := by
    simp [mergeOutcomes]
  have hb : (6 : Nat) < (mergeOutcomes ((List.range 7).map mkTestImage) witnessOuts).length := by
    rw [hlen]
    decide
  refine ⟨h.1, ?_⟩
  rw [List.getElem?_eq_getElem hb]
  have hg := h.2 6 (by decide) hb (by decide)
  simp only [List.get_eq_getElem] at hg
  rw [hg]
  decide

theorem insertSim_perm (x : Similarity) :
    ∀ (l : List Similarity), (insertSim x l).Perm (x :: l)
  | [] => List.Perm.refl _
  | b :: l => by
    simp only [insertSim]
    by_cases h : simLE x b
    · simp [h]
    · simp only [h, if_false]
      exact ((insertSim_perm x l).cons b).trans (List.Perm.swap x b l)

theorem sortSims_perm : ∀ (l : List Similarity), (sortSims l).Perm l
  | [] => List.Perm.refl _
  | x :: xs => (insertSim_perm x (sortSims xs)).trans ((sortSims_perm xs).cons x)

theorem insertSim_sorted (x : Similarity) :
    ∀ (l : List Similarity), l.Pairwise (fun a b => b.score ≤ a.score) →
      (insertSim x l).Pairwise (fun a b => b.score ≤ a.score)
  | [], _ => by simp [insertSim]
  | b :: l, hp => by
    obtain ⟨hb, hl⟩ := List.pairwise_cons.mp hp
    simp only [insertSim]
    by_cases h : simLE x b
    · have hxb : b.score ≤ x.score := by simpa [simLE] using h
      simp only [h, if_true]
      refine List.Pairwise.cons ?_ hp
      intro c hc
      rcases List.mem_cons.mp hc with rfl | hc
      · exact hxb
      · exact le_trans (hb c hc) hxb
    · have hbx : x.score < b.score := lt_of_not_le (by simpa [simLE] using h)
      simp only [h, if_false]
      refine List.Pairwise.cons ?_ (insertSim_sorted x l hl)
      intro c hc
      rcases List.mem_cons.mp ((insertSim_perm x l).mem_iff.mp hc) with rfl | hc
      · exact le_of_lt hbx
      · exact hb c hc

theorem sortSims_sorted : ∀ (l : List Similarity),
    (sortSims l).Pairwise (fun a b => b.score ≤ a.score)
  | [] => List.Pairwise.nil
  | x :: xs => insertSim_sorted x (sortSims xs) (sortSims_sorted xs)

theorem insertSim_filter_score (s : Rat) (x : Similarity) :
    ∀ (l : List Similarity),
      (insertSim x l).filter (fun y => decide (y.score = s))
        = if x.score = s
          then x :: l.filter (fun y => decide (y.score = s))
          else l.filter (fun y => decide (y.score = s))
  | [] => by
    by_cases h : x.score = s <;> simp [insertSim, h]
  | b :: l => by
    simp only [insertSim]
    by_cases hxb : simLE x b
    · simp only [hxb, if_true]
      by_cases h : x.score = s <;> simp [List.filter_cons, h]
    · have hlt : x.score < b.score := lt_of_not_le (by simpa [simLE] using hxb)
      simp only [hxb, if_false]
      by_cases h : x.score = s
      · have hb : ¬ (b.score = s) := by
          intro hbs
          rw [h] at hlt
          rw [hbs] at hlt
          exact lt_irrefl s hlt
        simp [List.filter_cons, hb, insertSim_filter_score s x l, h]
      · simp [List.filter_cons, insertSim_filter_score s x l, h]

theorem sortSims_filter_score (s : Rat) : ∀ (l : List Similarity),
    (sortSims l).filter (fun y => decide (y.score = s))
      = l.filter (fun y => decide (y.score = s))
  | [] => rfl
  | x :: xs => by
    simp only [sortSims]
    rw [insertSim_filter_score s x (sortSims xs), sortSims_filter_score s xs]
    by_cases h : x.score = s <;> simp [List.filter_cons, h]

theorem collectSettled_ok (f : List ProcessedImage → SearchBatchResult) :
    ∀ (gs : List (List ProcessedImage)) (i tb : Nat),
      (collectSettled (gs.map (fun g => Except.ok (f g))) i tb).similarities
        = (gs.map (fun g => (f g).similarities)).flatten
      ∧ (collectSettled (gs.map (fun g => Except.ok (f g))) i tb).rejectedHits = 0
  | [], _, _ => ⟨rfl, rfl⟩
  | g :: rest, i, tb => by
    have ih := collectSettled_ok f rest (i + 1) tb
    simp only [List.map_cons, collectSettled, List.flatten_cons]
    exact ⟨by rw [ih.1], ih.2⟩

theorem searchImagesInBatches_eq
    (search : String → List ProcessedImage → Nat → Except String GeminiSearchResponse)
    (query : String) (images : List ProcessedImage) (bs : Nat) (hne : images ≠ []) :
    (searchImagesInBatches search query images bs).result.similarities
      = sortSims (((chunkList bs images).map
          (fun g => (searchImageBatch (search query g)).similarities)).flatten)
    ∧ (searchImagesInBatches search query images bs).rejectedHits = 0 := by
  have hemp : images.isEmpty = false := by
    simpa [List.isEmpty_iff] using hne
  constructor
  · simp only [searchImagesInBatches, hemp, Bool.false_eq_true, if_false]
    exact congrArg sortSims
      (collectSettled_ok (fun g => searchImageBatch (search query g))
        (chunkList bs images) 0 _).1
  · simp only [searchImagesInBatches, hemp, Bool.false_eq_true, if_false]
    exact (collectSettled_ok (fun g => searchImageBatch (search query g))
      (chunkList bs images) 0 _).2

theorem searchImagesInBatches_rejectedHits
    (search : String → List ProcessedImage → Nat → Except String GeminiSearchResponse)
    (query : String) (images : List ProcessedImage) (bs : Nat) :
    (searchImagesInBatches search query images bs).rejectedHits = 0 := by
  by_cases hne : images = []
  · subst hne
    rfl
  · exact (searchImagesInBatches_eq search query images bs hne).2

/-- C6: after all search groups settle, the returned similarity list is a
permutation of the concatenation of every group's similarity entries in
partition (submission) order, it is sorted descending by score, and for each
score value the entries with that score appear exactly in concatenation
order — i.e. the result is the stable descending sort of the merged group
results.  Group completion order cannot influence the result: the model of
`Promise.allSettled` yields the settled values in submission order, which is
what JS guarantees regardless of completion timing. -/
theorem searchImagesInBatches_ranking
    (search : String → List ProcessedImage → Nat → Except String GeminiSearchResponse)
    (query : String) (images : List ProcessedImage) (bs : Nat) (hbs : 0 < bs) :
    ((searchImagesInBatches search query images bs).result.similarities).Perm
        (((chunkList bs images).map
          (fun g => (searchImageBatch (search query g)).similarities)).flatten)
    ∧ ((searchImagesInBatches search query images bs).result.similarities).Pairwise
        (fun a b => b.score ≤ a.score)
    ∧ (∀ s : Rat,
        ((searchImagesInBatches search query images bs).result.similarities).filter
            (fun y => decide (y.score = s))
          = (((chunkList bs images).map
              (fun g => (searchImageBatch (search query g)).similarities)).flatten).filter
              (fun y => decide (y.score = s))) := by
  by_cases hne : images = []
  · subst hne
    refine ⟨?_, ?_, ?_⟩ <;> simp [searchImagesInBatches, chunkList]
  · have h := (searchImagesInBatches_eq search query images bs hne).1
    rw [h]
    exact ⟨sortSims_perm _, sortSims_sorted _, fun s => sortSims_filter_score s _⟩

/-- Witness for C6: the ranking-determinism scenario of the spec — one
partition returning a(90), another returning b(95), c(20) — merges to
exactly b, a, c in descending score order. -/
theorem searchImagesInBatches_ranking_witness :
    0 < 1
    ∧ ((searchImagesInBatches rankSearch "q"
          ((List.range 2).map mkTestImage) 1).result.similarities).Pairwise
        (fun a b => b.score ≤ a.score)
    ∧ ((searchImagesInBatches rankSearch "q"
          ((List.range 2).map mkTestImage) 1).result.similarities).map
        (fun y => y.image_id) = ["b", "a", "c"] := by
  have h := searchImagesInBatches_ranking rankSearch "q"
    ((List.range 2).map mkTestImage) 1 (by decide)
  refine ⟨by decide, h.2.1, ?_⟩
  have he := (searchImagesInBatches_eq rankSearch "q"
    ((List.range 2).map mkTestImage) 1 (by decide)).1
  rw [he]
  have hc : chunkList 1 ((List.range 2).map mkTestImage)
      = [[mkTestImage 0], [mkTestImage 1]] := by
    have hl : (List.range 2).map mkTestImage = [mkTestImage 0, mkTestImage 1] := by decide
    rw [hl]
    simp [chunkList]
  rw [hc]
  decide

/-- Counterexample for C5: with two singleton partitions both returning the
image id x (scores 50 and 90), the merged list of `searchImagesInBatches`
contains two entries for x — uniqueness per imageId fails and the lower
score is not dropped. -/
theorem searchImagesInBatches_dup_counterexample :
    ¬ ((((searchImagesInBatches dupSearch "q"
          ((List.range 2).map mkTestImage) 1).result.similarities).filter
          (fun y => y.image_id == "x")).length ≤ 1) := by
  have he := (searchImagesInBatches_eq dupSearch "q"
    ((List.range 2).map mkTestImage) 1 (by decide)).1
  rw [he]
  have hc : chunkList 1 ((List.range 2).map mkTestImage)
      = [[mkTestImage 0], [mkTestImage 1]] := by
    have hl : (List.range 2).map mkTestImage = [mkTestImage 0, mkTestImage 1] := by decide
    rw [hl]
    simp [chunkList]
  rw [hc]
  decide

/-- C5 amended: `searchImagesInBatches` performs no per-imageId
deduplication — for every image id, the number of entries with that id in
the merged list equals the total number of such entries across all the
partitions' results, so an id returned by several partitions keeps all its
entries (the higher score does not replace the others). -/
theorem searchImagesInBatches_no_dedup
    (search : String → List ProcessedImage → Nat → Except String GeminiSearchResponse)
    (query : String) (images : List ProcessedImage) (bs : Nat) (hbs : 0 < bs)
    (id : String) :
    ((searchImagesInBatches search query images bs).result.similarities).countP
        (fun y => y.image_id == id)
      = (((chunkList bs images).map
          (fun g => (searchImageBatch (search query g)).similarities)).flatten).countP
          (fun y => y.image_id == id) := by
  by_cases hne : images = []
  · subst hne
    simp [searchImagesInBatches, chunkList]
  · rw [(searchImagesInBatches_eq search query images bs hne).1]
    exact (sortSims_perm _).countP_eq _

/-- Witness for C5 (amended): in the duplicate scenario the merged list
keeps both entries for x, matching the two entries of the partitions. -/
theorem searchImagesInBatches_no_dedup_witness :
    0 < 1
    ∧ ((searchImagesInBatches dupSearch "q"
          ((List.range 2).map mkTestImage) 1).result.similarities).countP
        (fun y => y.image_id == "x")
      = (((chunkList 1 ((List.range 2).map mkTestImage)).map
          (fun g => (searchImageBatch (dupSearch "q" g)).similarities)).flatten).countP
          (fun y => y.image_id == "x")
    ∧ ((searchImagesInBatches dupSearch "q"
          ((List.range 2).map mkTestImage) 1).result.similarities).countP
        (fun y => y.image_id == "x") = 2 := by
  have h := searchImagesInBatches_no_dedup dupSearch "q"
    ((List.range 2).map mkTestImage) 1 (by decide) "x"
  refine ⟨by decide, h, ?_⟩
  have he := (searchImagesInBatches_eq dupSearch "q"
    ((List.range 2).map mkTestImage) 1 (by decide)).1
  rw [he]
  have hc : chunkList 1 ((List.range 2).map mkTestImage)
      = [[mkTestImage 0], [mkTestImage 1]] := by
    have hl : (List.range 2).map mkTestImage = [mkTestImage 0, mkTestImage 1] := by decide
    rw [hl]
    simp [chunkList]
  rw [hc]
  decide

/-- C7: searching an empty corpus returns an empty similarity list
immediately, issuing zero `searchImageBatch` calls, with no callbacks and no
rejected settlements. -/
theorem searchImagesInBatches_empty
    (search : String → List ProcessedImage → Nat → Except String GeminiSearchResponse)
    (query : String) (bs : Nat) :
    searchImagesInBatches search query [] bs
      = ⟨{ similarities := [] }, 0, [], 0⟩ := rfl

/-- C10: `searchImageBatch` is total over its error model — a failing
retried call is caught and resolved as an empty similarity list, a
successful call resolves with its (defaulted) similarities — so every
promise handed to `Promise.allSettled` in `searchImagesInBatches` fulfills
and the rejected branch of the collection loop is never taken. -/
theorem searchImageBatch_never_rejects
    (searchCall : Nat → Except String GeminiSearchResponse)
    (search : String → List ProcessedImage → Nat → Except String GeminiSearchResponse)
    (query : String) (images : List ProcessedImage) (bs : Nat) :
    (∀ e, (withRetry searchCall MAX_RETRIES INITIAL_RETRY_DELAY).result = Except.error e →
        searchImageBatch searchCall = { similarities := [] })
    ∧ (∀ r, (withRetry searchCall MAX_RETRIES INITIAL_RETRY_DELAY).result = Except.ok r →
        searchImageBatch searchCall = { similarities := r.similarities.getD [] })
    ∧ (searchImagesInBatches search query images bs).rejectedHits = 0 := by
  refine ⟨fun e he => searchImageBatch_error searchCall e he, ?_,
    searchImagesInBatches_rejectedHits search query images bs⟩
  intro r hr
  simp only [searchImageBatch, hr]

/-- Witness for C10: a concrete always-failing call resolves to an empty
list, and a concrete two-partition run has zero rejected settlements. -/
theorem searchImageBatch_never_rejects_witness :
    searchImageBatch (failSearch "query2" [mkTestImage 0]) = { similarities := [] }
    ∧ (searchImagesInBatches dupSearch "q"
        ((List.range 2).map mkTestImage) 1).rejectedHits = 0 := by
  have h := searchImageBatch_never_rejects (failSearch "query2" [mkTestImage 0])
    dupSearch "q" ((List.range 2).map mkTestImage) 1
  exact ⟨h.1 "search boom" (by decide), h.2.2⟩

/-- C8 (code bug): at 20 input images under the variant batch size 15, after
batch index 0 of totalBatches 2 the first group of 15 images has completed,
but the page.tsx progress update reports completed = 5 (a hardcoded
batch-size-5 formula) and percentage = 50 (computed from the batch index
rather than from completed/total), while the Progress Record rule requires
completed = 15 and percentage = round(100 * 15 / 20) = 75. -/
theorem pageProgress_code_bug :
    (20 + BATCH_SIZE_VARIANT - 1) / BATCH_SIZE_VARIANT = 2
    ∧ (((List.range 20).map mkTestImage).take BATCH_SIZE_VARIANT).length = 15
    ∧ (pageUploadProgress ⟨20, 0, none, 0⟩ 0 2 20).completed = 5
    ∧ (pageUploadProgress ⟨20, 0, none, 0⟩ 0 2 20).percentage = 50
    ∧ specProgressPercentage 15 20 = 75
    ∧ (pageUploadProgress ⟨20, 0, none, 0⟩ 0 2 20).completed ≠ 15
    ∧ (pageUploadProgress ⟨20, 0, none, 0⟩ 0 2 20).percentage
        ≠ specProgressPercentage 15 20 := by
  refine ⟨by decide, by decide, by decide, by decide, by decide, by decide, by decide⟩
